import Mathlib

/-!
Verification of the kmud concurrency/consistency core against its
specification.  The Go sources (`session/session.go`, `database` area
entity, `utils` tests) are shallowly embedded: pure functions become Lean
functions, the stateful session dispatcher becomes explicit state passing
over traces of channel arrivals, and machine timing becomes arithmetic
over natural-number milliseconds.
-/

namespace Kmud

/-! ## Entity base: the `Area` entity (database package, part_000)

`Area` embeds a `DbObject`; we model the inherited identity as a `Nat` id.
`objectModified` commits the whole entity to the backing store; a mutator
is modelled as returning the new entity value together with the list of
commit actions it performed (each commit carries the serialized entity
snapshot). -/

inductive ObjectType where
  | areaType
  | characterType
  | roomType
  | zoneType
  | itemType
  | userType
deriving DecidableEq

structure Area where
  id : Nat
  Name : String
  ZoneId : Nat
deriving DecidableEq

/-- Embedding of `Area.GetType` (part_000 lines 28-30). -/
def Area.GetType (_ : Area) : ObjectType :=
  ObjectType.areaType

/-- Embedding of `Area.GetName` (part_000 lines 32-37): read the field
under the read lock (the lock only serializes access; the returned value
is the current field). -/
def Area.GetName (self : Area) : String :=
  self.Name

/-- Embedding of `Area.GetZoneId` (part_000 lines 49-54). -/
def Area.GetZoneId (self : Area) : Nat :=
  self.ZoneId

/-- Embedding of `Area.SetName` (part_000 lines 39-47): under the write
lock, if the new name differs from the current one, update the field and
call `objectModified` (one commit of the updated entity); otherwise do
nothing.  The second component is the list of commits performed. -/
def Area.SetName (self : Area) (name : String) : Area × List Area :=
  if name ≠ self.Name then
    let self1 : Area := { self with Name := name }
    (self1, [self1])
  else
    (self, [])

/-! ## World data model for rooms/zones

`database.Room`, `database.Zone` and the `model` package are not under
`src/`; the definitions below are modelled from the spec: a Room
references its Zone and neighboring rooms via directional exits, has a
grid location, and exposes `HasExit` / `SetExitEnabled` /
`NextLocation`; directions come in opposite pairs. -/

structure Coordinate where
  x : Int
  y : Int
  z : Int
deriving DecidableEq

inductive ExitDirection where
  | north
  | northEast
  | east
  | southEast
  | south
  | southWest
  | west
  | northWest
  | up
  | down
  | none
deriving DecidableEq

/-- Modelled from the spec: `database.ExitDirection.Opposite` pairs each
direction with its opposite (north/south, east/west, the diagonals,
up/down). -/
def ExitDirection.Opposite : ExitDirection → ExitDirection
  | .north => .south
  | .northEast => .southWest
  | .east => .west
  | .southEast => .northWest
  | .south => .north
  | .southWest => .northEast
  | .west => .east
  | .northWest => .southEast
  | .up => .down
  | .down => .up
  | .none => .none

structure Exits where
  north : Bool
  northEast : Bool
  east : Bool
  southEast : Bool
  south : Bool
  southWest : Bool
  west : Bool
  northWest : Bool
  up : Bool
  down : Bool
deriving DecidableEq

def Exits.set (e : Exits) : ExitDirection → Bool → Exits
  | .north, b => { e with north := b }
  | .northEast, b => { e with northEast := b }
  | .east, b => { e with east := b }
  | .southEast, b => { e with southEast := b }
  | .south, b => { e with south := b }
  | .southWest, b => { e with southWest := b }
  | .west, b => { e with west := b }
  | .northWest, b => { e with northWest := b }
  | .up, b => { e with up := b }
  | .down, b => { e with down := b }
  | .none, _ => e

structure Zone where
  id : Nat
  name : String
deriving DecidableEq

structure Room where
  id : Nat
  zoneId : Nat
  title : String
  description : String
  location : Coordinate
  exits : Exits
deriving DecidableEq

/-- Modelled from the spec: `database.Room.HasExit` reports whether the
exit in the given direction is enabled. -/
def Room.HasExit (r : Room) : ExitDirection → Bool
  | .north => r.exits.north
  | .northEast => r.exits.northEast
  | .east => r.exits.east
  | .southEast => r.exits.southEast
  | .south => r.exits.south
  | .southWest => r.exits.southWest
  | .west => r.exits.west
  | .northWest => r.exits.northWest
  | .up => r.exits.up
  | .down => r.exits.down
  | .none => false

/-- Modelled from the spec: `database.Room.SetExitEnabled` sets the
enabled flag of the exit in the given direction. -/
def Room.SetExitEnabled (r : Room) (d : ExitDirection) (b : Bool) : Room :=
  { r with exits := r.exits.set d b }

/-- Modelled from the spec: `database.Room.NextLocation` is the grid
coordinate adjacent to the room in the given direction. -/
def Room.NextLocation (r : Room) : ExitDirection → Coordinate
  | .north => { r.location with y := r.location.y - 1 }
  | .northEast => { r.location with x := r.location.x + 1, y := r.location.y - 1 }
  | .east => { r.location with x := r.location.x + 1 }
  | .southEast => { r.location with x := r.location.x + 1, y := r.location.y + 1 }
  | .south => { r.location with y := r.location.y + 1 }
  | .southWest => { r.location with x := r.location.x - 1, y := r.location.y + 1 }
  | .west => { r.location with x := r.location.x - 1 }
  | .northWest => { r.location with x := r.location.x - 1, y := r.location.y - 1 }
  | .up => { r.location with z := r.location.z + 1 }
  | .down => { r.location with z := r.location.z - 1 }
  | .none => r.location

/-! ## Events and the dispatcher's event processing (session.go 91-104)

`model.Event` lives in the `model` package (not under `src/`); we model
an event as its type-tagged payload together with its rendered message
(the result of `event.ToString(session.player)`, which is computed by
external rendering code before the type switch runs). -/

inductive Event where
  | roomUpdate (room : Room) (message : String)
  | other (message : String)
deriving DecidableEq

/-- The session dispatcher's cached state (session.go 15-21):
`session.room` and `session.zone` references. -/
structure SessionState where
  room : Room
  zone : Zone
deriving DecidableEq

/-- Embedding of the `processEvent` closure (session.go 92-104): the
rendered message is returned; additionally, a `RoomUpdateEvent` whose
room id equals the cached room's id replaces the cached room. -/
def processEvent (s : SessionState) : Event → SessionState × String
  | .roomUpdate room message =>
    if room.id = s.room.id then ({ s with room := room }, message)
    else (s, message)
  | .other message => (s, message)

/-! ## The `getUserInput` multiplexer (session.go 115-140)

The dispatcher's `select` loop waits on three channels.  We model one
run of `getUserInput` over the trace of messages the `select` receives,
in arrival order: each trace element is a receipt from exactly one of
`userInputChannel`, `eventChannel` or `panicChannel`.  The run returns
the updated session state, the list of output actions written to the
connection, the way the loop ended, and the unconsumed remainder of the
trace. -/

inductive Arrival where
  | input (line : String)
  | event (e : Event)
  | panicMsg (msg : String)
deriving DecidableEq

inductive OutAction where
  | clearLine
  | printLine (text : String)
  | printString (text : String)
  | menuDisplay (title : String)
deriving DecidableEq

inductive InputResult where
  | returned (line : String)
  | panicked (msg : String)
  | blocked
deriving DecidableEq

/-- Embedding of the `getUserInput` closure's `select` loop
(session.go 124-138): an input line is returned at once; an event is
processed, and if its rendered message is non-empty the line is cleared,
the message printed and the prompt re-printed, then the wait resumes; a
forwarded panic is re-raised.  `blocked` models the loop still waiting
when the trace runs out. -/
def getUserInputRun (s : SessionState) (prompt : String) :
    List Arrival → SessionState × List OutAction × InputResult × List Arrival
  | [] => (s, [], InputResult.blocked, [])
  | Arrival.input line :: rest => (s, [], InputResult.returned line, rest)
  | Arrival.event e :: rest =>
    let p := processEvent s e
    let tail := getUserInputRun p.1 prompt rest
    if p.2 = "" then tail
    else (tail.1,
      (OutAction.clearLine :: OutAction.printLine p.2 :: OutAction.printString prompt :: tail.2.1),
      tail.2.2.1, tail.2.2.2)
  | Arrival.panicMsg m :: rest => (s, [], InputResult.panicked m, rest)

/-- Specification-side rendering, following the claim's words: each
event whose rendered message is non-empty is printed (after clearing the
line) and then the current prompt is re-displayed; the cached state is
updated along the way. -/
def eventEchoSpec (prompt : String) (s : SessionState) :
    List Event → SessionState × List OutAction
  | [] => (s, [])
  | e :: es =>
    let p := processEvent s e
    let tail := eventEchoSpec prompt p.1 es
    (tail.1,
      (if p.2 = "" then []
       else [OutAction.clearLine, OutAction.printLine p.2, OutAction.printString prompt]) ++ tail.2)

/-- Running the multiplexer over a block of events followed by any trace
first renders the events per `eventEchoSpec`, then continues on the
remaining trace. -/
lemma getUserInputRun_events (s : SessionState) (prompt : String)
    (es : List Event) (tr : List Arrival) :
    getUserInputRun s prompt (es.map Arrival.event ++ tr) =
      ((getUserInputRun (eventEchoSpec prompt s es).1 prompt tr).1,
       (eventEchoSpec prompt s es).2 ++ (getUserInputRun (eventEchoSpec prompt s es).1 prompt tr).2.1,
       (getUserInputRun (eventEchoSpec prompt s es).1 prompt tr).2.2.1,
       (getUserInputRun (eventEchoSpec prompt s es).1 prompt tr).2.2.2) := by
  induction es generalizing s with
  | nil => simp [eventEchoSpec]
  | cons e es ih =>
    simp only [List.map_cons, List.cons_append, getUserInputRun, eventEchoSpec, List.append_eq]
    rw [ih (processEvent s e).1]
    by_cases h : (processEvent s e).2 = "" <;> simp [h]

/-! ## Menus and `execMenu` (session.go 142-157)

`utils.Menu` is not under `src/`; modelled from the spec: a menu has a
title, a prompt and a list of keyed actions, optionally carrying data
(an object id, modelled as `Nat`). -/

structure MenuAction where
  key : String
  text : String
  data : Option Nat
deriving DecidableEq

structure Menu where
  title : String
  prompt : String
  actions : List MenuAction
deriving DecidableEq

/-- Modelled from the spec: `utils.Menu.HasAction` reports whether some
action of the menu has the given key. -/
def Menu.HasAction (m : Menu) (choice : String) : Bool :=
  m.actions.any (fun a => a.key = choice)

/-- Modelled from the spec: `utils.Menu.GetData` returns the data
attached to the action with the given key, if any. -/
def Menu.GetData (m : Menu) (choice : String) : Option Nat :=
  (m.actions.find? (fun a => a.key = choice)).bind MenuAction.data

/-- Modelled from the spec: `utils.Menu.GetPrompt`. -/
def Menu.GetPrompt (m : Menu) : String :=
  m.prompt

inductive MenuResult where
  | done (choice : String) (data : Option Nat)
  | panicked (msg : String)
  | blocked
deriving DecidableEq

lemma getUserInputRun_returned_length {s : SessionState} {prompt : String}
    {tr : List Arrival} {line : String}
    (h : (getUserInputRun s prompt tr).2.2.1 = InputResult.returned line) :
    (getUserInputRun s prompt tr).2.2.2.length < tr.length := by
  induction tr generalizing s with
  | nil => simp [getUserInputRun] at h
  | cons a rest ih =>
    cases a with
    | input l =>
      simp [getUserInputRun]
    | event e =>
      simp only [getUserInputRun] at h ⊢
      by_cases hm : (processEvent s e).2 = "" <;>
        simp only [hm, if_true, if_false, ite_true, ite_false] at h ⊢ <;>
        exact Nat.lt_succ_of_lt (ih h)
    | panicMsg m => simp [getUserInputRun] at h

/-- Embedding of the `execMenu` closure (session.go 144-157): print the
menu, get a choice via the non-blocking `getUserInput`, and loop until
the choice is a menu action or the empty string; then return the choice
and its data. -/
def execMenuRun (menu : Menu) (s : SessionState) (tr : List Arrival) :
    SessionState × List OutAction × MenuResult :=
  let r := getUserInputRun s menu.GetPrompt tr
  match h : r.2.2.1 with
  | InputResult.blocked =>
    (r.1, OutAction.menuDisplay menu.title :: r.2.1, MenuResult.blocked)
  | InputResult.panicked m =>
    (r.1, OutAction.menuDisplay menu.title :: r.2.1, MenuResult.panicked m)
  | InputResult.returned choice =>
    if Menu.HasAction menu choice = true ∨ choice = "" then
      (r.1, OutAction.menuDisplay menu.title :: r.2.1,
        MenuResult.done choice (Menu.GetData menu choice))
    else
      let tail := execMenuRun menu r.1 r.2.2.2
      (tail.1, (OutAction.menuDisplay menu.title :: r.2.1) ++ tail.2.1, tail.2.2)
termination_by tr.length
decreasing_by
  exact getUserInputRun_returned_length h

/-! ## The reader task (session.go 736-773)

The reader goroutine recovers any panic raised while reading and
forwards it on `panicChannel` instead of crashing on its own
(session.go 740-744); a successful read is delivered on
`userInputChannel`. -/

inductive ReadOutcome where
  | line (text : String)
  | failure (msg : String)
deriving DecidableEq

/-- Embedding of the reader goroutine's delivery of one iteration's
outcome to the dispatcher (session.go 739-744 and 770): a read line goes
to `userInputChannel`; a panic is recovered and its value goes to
`panicChannel`. -/
def readerForward : ReadOutcome → Arrival
  | .line text => Arrival.input text
  | .failure msg => Arrival.panicMsg msg

/-! ### Throttling (session.go 746-771)

Times are in milliseconds on a monotonic clock, modelled as `Nat`.
`lastTime` is the time of the previous delivery; `r` is the time the
network read completes. -/

/-- Embedding of the throttle in the reader loop: `diff := now -
lastTime`; if `diff < 200` the reader sleeps `200 - diff` before sending
the input, so the send happens at `r + (200 - diff)`; otherwise it sends
at once. -/
def readerSend (lastTime r : Nat) : Nat :=
  if r - lastTime < 200 then r + (200 - (r - lastTime)) else r

/-- The reader loop's successive delivery times, given the previous
delivery time and the read-completion times of each iteration. -/
def readerRun (lastTime : Nat) : List Nat → List Nat
  | [] => []
  | r :: rs => readerSend lastTime r :: readerRun (readerSend lastTime r) rs

/-- Clock monotonicity: each read completes no earlier than the previous
delivery (iteration `i+1` only starts reading after delivery `i`). -/
def chainedReads : Nat → List Nat → Bool
  | _, [] => true
  | lastTime, r :: rs => decide (lastTime ≤ r) && chainedReads (readerSend lastTime r) rs

/-! ## Raw input and the top-level loop (session.go 775-786)

`utils.GetRawUserInput`, `utils.GetUserInput` and `utils.Argify` are not
under `src/` (only their tests, part_001); they are modelled from the
spec and the test vectors. -/

/-- Modelled from the spec: `utils.GetRawUserInput` (only its test,
part_001 lines 69-90, is under `src/`) returns the line verbatim —
preserving case and surrounding whitespace — except that a line that is
exactly "x" or "X" yields the empty string. -/
def GetRawUserInput (line : String) : String :=
  if line = "x" ∨ line = "X" then "" else line

/-- Space-separated word splitting over the line's characters,
accumulating the current word in reverse. -/
def fieldsAux : List Char → List Char → List String
  | [], acc => if acc.isEmpty then [] else [String.mk acc.reverse]
  | c :: cs, acc =>
    if c = ' ' then
      if acc.isEmpty then fieldsAux cs []
      else String.mk acc.reverse :: fieldsAux cs []
    else fieldsAux cs (c :: acc)

def fields (line : String) : List String :=
  fieldsAux line.data []

/-- Modelled from the spec: `utils.Argify` (only its test, part_001
lines 207-228, is under `src/`) splits a line into its first
space-separated word and the list of remaining words. -/
def Argify (line : String) : String × List String :=
  match fields line with
  | [] => ("", [])
  | c :: rest => (c, rest)

/-- One dispatch decided by the top-level loop body. -/
inductive Dispatch where
  | command (cmd : String) (args : List String)
  | action (cmd : String) (args : List String)
deriving DecidableEq

/-- Embedding of the body of the main loop (session.go 776-786): an
empty line or the literal "logout" returns from `Exec` (`none`); a line
starting with "/" is dispatched as a command on the line minus its
leading slash; anything else is dispatched as an action. -/
def sessionStep (input : String) : Option Dispatch :=
  if input = "" ∨ input = "logout" then Option.none
  else if input.data.head? = Option.some '/' then
    Option.some (Dispatch.command (Argify (String.mk (input.data.drop 1))).1
      (Argify (String.mk (input.data.drop 1))).2)
  else
    Option.some (Dispatch.action (Argify input).1 (Argify input).2)

/-- How a run of the main loop over a finite list of input lines ends:
either `Exec` returned (so the deferred `model.Unregister` of
session.go 107 runs), or the loop is still awaiting further input. -/
inductive ExecOutcome where
  | returned (dispatched : List Dispatch)
  | awaitingInput (dispatched : List Dispatch)
deriving DecidableEq

def ExecOutcome.dispatched : ExecOutcome → List Dispatch
  | .returned ds => ds
  | .awaitingInput ds => ds

def ExecOutcome.cons (d : Dispatch) : ExecOutcome → ExecOutcome
  | .returned ds => .returned (d :: ds)
  | .awaitingInput ds => .awaitingInput (d :: ds)

/-- Embedding of the main loop of `Exec` (session.go 776-786) over a
finite list of accepted input lines. -/
def execLoop : List String → ExecOutcome
  | [] => ExecOutcome.awaitingInput []
  | input :: rest =>
    match sessionStep input with
    | Option.none => ExecOutcome.returned []
    | Option.some d => (execLoop rest).cons d

/-- The deferred `model.Unregister(eventChannel)` (session.go 107) runs
exactly when `Exec` returns. -/
def mailboxUnregistered : ExecOutcome → Bool
  | .returned _ => true
  | .awaitingInput _ => false

/-! ## World lookup and the exit editor's toggle (session.go 189-210)

`model.M.GetRoomByLocation` is not under `src/`; modelled from the spec:
it finds a room of the given zone at the given location. -/

structure World where
  rooms : List Room
deriving DecidableEq

/-- Modelled from the spec: `model.M.GetRoomByLocation` returns a room
at the given location belonging to the given zone, if one exists. -/
def GetRoomByLocation (w : World) (loc : Coordinate) (zone : Zone) : Option Room :=
  w.rooms.find? (fun r => decide (r.location = loc) && decide (r.zoneId = zone.id))

/-- In-place mutation of a room object (Go rooms are shared pointers):
the world where the room with the mutated room's id now carries the
mutated value. -/
def World.updateRoom (w : World) (r1 : Room) : World :=
  { rooms := w.rooms.map (fun r => if r.id = r1.id then r1 else r) }

/-- Embedding of the exit-toggle branch of the room editor
(session.go 199-210): for a recognized direction, flip the current
room's exit, then look up the room adjacent in that direction in the
session's zone and, if present, set its opposite exit to the same
state; the two mutations happen sequentially, each on its own room.
The Go locals `enable`, the mutated current room and the intermediate
world state are inlined. -/
def toggleExit (w : World) (room : Room) (zone : Zone) (direction : ExitDirection) : World :=
  if direction = ExitDirection.none then w
  else
    match GetRoomByLocation
        (w.updateRoom (room.SetExitEnabled direction (!(room.HasExit direction))))
        ((room.SetExitEnabled direction (!(room.HasExit direction))).NextLocation direction)
        zone with
    | Option.some otherRoom =>
      (w.updateRoom (room.SetExitEnabled direction (!(room.HasExit direction)))).updateRoom
        (otherRoom.SetExitEnabled direction.Opposite (!(room.HasExit direction)))
    | Option.none => w.updateRoom (room.SetExitEnabled direction (!(room.HasExit direction)))

/-! ## The `/zone` command (session.go 344-394)

`model.M.GetZoneByName` is not under `src/`; modelled from the spec: it
finds a zone with the given name. -/

/-- Modelled from the spec: `model.M.GetZoneByName`. -/
def GetZoneByName (zones : List Zone) (name : String) : Option Zone :=
  zones.find? (fun z => decide (z.name = name))

/-- The externally visible effect of one run of the `zone` command
branch. -/
inductive ZoneCmdEffect where
  | showedNullZone
  | showedCurrent (name : String)
  | listedZones
  | usageError
  | rejectedExisting
  | renamedCurrent (newName : String)
  | movedNullToNew (name : String)
  | createdZoneAndRoom (name : String)
  | noEffect
deriving DecidableEq

/-- Embedding of the `case "zone"` branch of `processCommand`
(session.go 344-394), with the null zone modelled as zone id 0.  Note
the source's duplicate-name guard looks up `GetZoneByName(args[0])` —
the literal subcommand word — in both the rename and the new branch
(session.go 363 and 377); this definition mirrors that exactly.
`rejectedExisting` is the `printError("A zone with that name already
exists")` path. -/
def zoneCommand (sessionZone : Zone) (zones : List Zone) (args : List String) : ZoneCmdEffect :=
  match args with
  | [] =>
    if sessionZone.id = 0 then ZoneCmdEffect.showedNullZone
    else ZoneCmdEffect.showedCurrent sessionZone.name
  | [a] =>
    if a = "list" then ZoneCmdEffect.listedZones else ZoneCmdEffect.usageError
  | [a, b] =>
    if a = "rename" then
      match GetZoneByName zones a with
      | Option.some _ => ZoneCmdEffect.rejectedExisting
      | Option.none =>
        if sessionZone.id = 0 then ZoneCmdEffect.movedNullToNew b
        else ZoneCmdEffect.renamedCurrent b
    else if a = "new" then
      match GetZoneByName zones a with
      | Option.some _ => ZoneCmdEffect.rejectedExisting
      | Option.none => ZoneCmdEffect.createdZoneAndRoom b
    else ZoneCmdEffect.noEffect
  | _ => ZoneCmdEffect.noEffect

/-! ## Claim theorems -/

/-- C3: for every Area entity, calling SetName with a name equal to the
current Name performs no persistence commit and leaves the entity
unchanged; a commit is triggered only when the new value differs from
the old. -/
theorem area_setName_noop_skips_commit (a : Area) (n : String) :
    (n = a.Name → a.SetName n = (a, [])) ∧
    (n ≠ a.Name → (a.SetName n).2 ≠ []) := by
  constructor
  · intro h
    simp [Area.SetName, h]
  · intro h
    simp [Area.SetName, h]

theorem area_setName_noop_skips_commit_witness :
    ("Meadow" = (Area.mk 4 "Meadow" 2).Name ∧
      (Area.mk 4 "Meadow" 2).SetName "Meadow" = (Area.mk 4 "Meadow" 2, [])) ∧
    ("Forest" ≠ (Area.mk 4 "Meadow" 2).Name ∧
      ((Area.mk 4 "Meadow" 2).SetName "Forest").2 ≠ []) :=
  ⟨⟨rfl, (area_setName_noop_skips_commit (Area.mk 4 "Meadow" 2) "Meadow").1 rfl⟩,
   ⟨by decide, (area_setName_noop_skips_commit (Area.mk 4 "Meadow" 2) "Forest").2 (by decide)⟩⟩

/-- C8: for every Area entity and every name different from its current
Name, SetName updates the Name field and performs exactly one commit (of
the updated entity), while leaving the entity's ZoneId, identity and
type unchanged; a subsequent GetName returns the new name. -/
theorem area_setName_commits_once (a : Area) (n : String) (h : n ≠ a.Name) :
    (a.SetName n).1.GetName = n ∧
    (a.SetName n).2 = [(a.SetName n).1] ∧
    (a.SetName n).1.GetZoneId = a.GetZoneId ∧
    (a.SetName n).1.id = a.id ∧
    (a.SetName n).1.GetType = a.GetType := by
  simp [Area.SetName, h, Area.GetName, Area.GetZoneId, Area.GetType]

theorem area_setName_commits_once_witness :
    "Forest" ≠ (Area.mk 4 "Meadow" 2).Name ∧
    (((Area.mk 4 "Meadow" 2).SetName "Forest").1.GetName = "Forest" ∧
      ((Area.mk 4 "Meadow" 2).SetName "Forest").2 = [((Area.mk 4 "Meadow" 2).SetName "Forest").1] ∧
      ((Area.mk 4 "Meadow" 2).SetName "Forest").1.GetZoneId = (Area.mk 4 "Meadow" 2).GetZoneId ∧
      ((Area.mk 4 "Meadow" 2).SetName "Forest").1.id = (Area.mk 4 "Meadow" 2).id ∧
      ((Area.mk 4 "Meadow" 2).SetName "Forest").1.GetType = (Area.mk 4 "Meadow" 2).GetType) :=
  ⟨by decide, area_setName_commits_once (Area.mk 4 "Meadow" 2) "Forest" (by decide)⟩

/-- C9: processing a received event replaces the cached room exactly
when the event is a RoomUpdateEvent whose room id equals the cached
room's id; every other event leaves the cached room and zone references
unchanged (and the zone is never touched). -/
theorem processEvent_refreshes_room_exactly_on_matching_update
    (s : SessionState) (e : Event) :
    (processEvent s e).1.zone = s.zone ∧
    (match e with
     | Event.roomUpdate r _ =>
       if r.id = s.room.id then (processEvent s e).1 = { s with room := r }
       else (processEvent s e).1 = s
     | Event.other _ => (processEvent s e).1 = s) := by
  cases e with
  | roomUpdate r m =>
    by_cases h : r.id = s.room.id <;> simp [processEvent, h]
  | other m => simp [processEvent]

/-- C4: at the top-level loop of Exec, an empty input line or the
literal "logout" makes the loop return (so the deferred mailbox
unregistration runs); every other input is dispatched as a command (when
it starts with a slash) or an action, and the loop continues on the
remaining input. -/
theorem execLoop_logout_or_empty_terminates (input : String) (rest : List String) :
    ((input = "" ∨ input = "logout") →
      execLoop (input :: rest) = ExecOutcome.returned [] ∧
      mailboxUnregistered (execLoop (input :: rest)) = true) ∧
    (input ≠ "" → input ≠ "logout" →
      execLoop (input :: rest) =
        (execLoop rest).cons
          (if input.data.head? = Option.some '/'
           then Dispatch.command (Argify (String.mk (input.data.drop 1))).1
             (Argify (String.mk (input.data.drop 1))).2
           else Dispatch.action (Argify input).1 (Argify input).2) ∧
      mailboxUnregistered (execLoop (input :: rest)) = mailboxUnregistered (execLoop rest)) := by
  constructor
  · intro h
    simp [execLoop, sessionStep, h, mailboxUnregistered]
  · intro h1 h2
    have hs : sessionStep input =
        Option.some
          (if input.data.head? = Option.some '/'
           then Dispatch.command (Argify (String.mk (input.data.drop 1))).1
             (Argify (String.mk (input.data.drop 1))).2
           else Dispatch.action (Argify input).1 (Argify input).2) := by
      simp only [sessionStep, h1, h2, or_self, if_false, ite_false]
      by_cases hp : input.data.head? = Option.some '/' <;> simp [hp]
    constructor
    · simp [execLoop, hs]
    · simp only [execLoop, hs]
      cases execLoop rest <;> simp [ExecOutcome.cons, mailboxUnregistered]

theorem execLoop_logout_or_empty_terminates_witness :
    (execLoop ["logout", "who"] = ExecOutcome.returned [] ∧
      mailboxUnregistered (execLoop ["logout", "who"]) = true) ∧
    (execLoop ["/say hi"] = ExecOutcome.awaitingInput [Dispatch.command "say" ["hi"]] ∧
      mailboxUnregistered (execLoop ["/say hi"]) = mailboxUnregistered (execLoop [])) := by
  refine ⟨(execLoop_logout_or_empty_terminates "logout" ["who"]).1 (Or.inr rfl), ?_, ?_⟩
  · exact (((execLoop_logout_or_empty_terminates "/say hi" []).2
      (by decide) (by decide)).1).trans (by decide)
  · exact ((execLoop_logout_or_empty_terminates "/say hi" []).2 (by decide) (by decide)).2

/-- C10: GetRawUserInput returns the line verbatim — preserving case and
surrounding whitespace — except that exactly "x" or "X" yields the empty
string; since the top-level loop treats an empty result as logout, a
lone "x" input ends the session. -/
theorem getRawUserInput_verbatim_except_x (rest : List String) :
    GetRawUserInput "Test1" = "Test1" ∧
    GetRawUserInput "TEST2" = "TEST2" ∧
    GetRawUserInput " test3 " = " test3 " ∧
    GetRawUserInput "\tTeSt4\t" = "\tTeSt4\t" ∧
    GetRawUserInput "x" = "" ∧
    GetRawUserInput "X" = "" ∧
    (∀ line : String, line ≠ "x" → line ≠ "X" → GetRawUserInput line = line) ∧
    execLoop (GetRawUserInput "x" :: rest) = ExecOutcome.returned [] := by
  refine ⟨by decide, by decide, by decide, by decide, by decide, by decide, ?_, ?_⟩
  · intro line h1 h2
    simp [GetRawUserInput, h1, h2]
  · simp [GetRawUserInput, execLoop, sessionStep]

theorem getRawUserInput_verbatim_except_x_witness :
    GetRawUserInput " test3 " = " test3 " ∧
    GetRawUserInput "north" = "north" ∧
    execLoop [GetRawUserInput "x"] = ExecOutcome.returned [] :=
  ⟨(getRawUserInput_verbatim_except_x []).2.2.1,
   (getRawUserInput_verbatim_except_x []).2.2.2.2.2.2.1 "north" (by decide) (by decide),
   (getRawUserInput_verbatim_except_x []).2.2.2.2.2.2.2⟩

/-- C7 counter-evidence: the duplicate-name guard of `/zone rename` and
`/zone new` looks up the literal subcommand word instead of the
requested name, so `/zone new Foo` proceeds although a zone named "Foo"
exists, and `/zone rename Fresh` is rejected although no zone named
"Fresh" exists (a zone is literally named "rename"). -/
theorem zoneCommand_duplicate_check_uses_wrong_argument :
    GetZoneByName [Zone.mk 7 "Foo"] "Foo" = Option.some (Zone.mk 7 "Foo") ∧
    zoneCommand (Zone.mk 5 "Bar") [Zone.mk 7 "Foo"] ["new", "Foo"] =
      ZoneCmdEffect.createdZoneAndRoom "Foo" ∧
    GetZoneByName [Zone.mk 9 "rename"] "Fresh" = Option.none ∧
    zoneCommand (Zone.mk 5 "Bar") [Zone.mk 9 "rename"] ["rename", "Fresh"] =
      ZoneCmdEffect.rejectedExisting := by
  decide

/-! ### C2: throttle lemmas -/

lemma readerSend_lower {lastTime r : Nat} (h : lastTime ≤ r) :
    lastTime + 200 ≤ readerSend lastTime r := by
  unfold readerSend
  split <;> omega

lemma readerRun_length (lastTime : Nat) (rs : List Nat) :
    (readerRun lastTime rs).length = rs.length := by
  induction rs generalizing lastTime with
  | nil => rfl
  | cons r rs ih => simp [readerRun, ih]

lemma readerRun_chain (lastTime : Nat) (rs : List Nat)
    (h : chainedReads lastTime rs = true) :
    List.Chain' (fun a b => a + 200 ≤ b) (readerRun lastTime rs) := by
  induction rs generalizing lastTime with
  | nil => simp [readerRun]
  | cons r rs ih =>
    simp only [chainedReads, Bool.and_eq_true, decide_eq_true_eq] at h
    cases rs with
    | nil => simp [readerRun]
    | cons r2 rs2 =>
      simp only [readerRun, List.chain'_cons]
      refine ⟨?_, ?_⟩
      · have h2 : readerSend lastTime r ≤ r2 := by
          have := h.2
          simp only [chainedReads, Bool.and_eq_true, decide_eq_true_eq] at this
          exact this.1
        exact readerSend_lower h2
      · have := ih (readerSend lastTime r) h.2
        simpa [readerRun] using this

lemma chain_span_200 : ∀ l : List Nat, List.Chain' (fun a b => a + 200 ≤ b) l →
    ∀ a b : Nat, l.head? = Option.some a → l.getLast? = Option.some b →
    a + (l.length - 1) * 200 ≤ b := by
  intro l
  induction l with
  | nil =>
    intro _ a b ha _
    simp at ha
  | cons x t ih =>
    intro hc a b ha hb
    have hax : x = a := by simpa using ha
    subst hax
    cases t with
    | nil =>
      have hbx : x = b := by simpa using hb
      subst hbx
      simp
    | cons y t2 =>
      rw [List.chain'_cons] at hc
      rw [List.getLast?_cons_cons] at hb
      have h2 := ih hc.2 y b rfl hb
      have h1 : x + 200 ≤ y := hc.1
      simp only [List.length_cons] at h2 ⊢
      omega

/-- C2: successive accepted inputs are delivered at least 200ms apart:
when a read completes less than 200ms after the previous delivery the
reader sleeps out the remainder of the window; when it completes later
it is sent at once; consequently n chained inputs span at least
(n-1)*200ms between first and last delivery. -/
theorem reader_throttle_200ms (lastTime : Nat) (rs : List Nat)
    (h : chainedReads lastTime rs = true) :
    List.Chain' (fun a b => a + 200 ≤ b) (readerRun lastTime rs) ∧
    (∀ firstDelivery lastDelivery : Nat,
      (readerRun lastTime rs).head? = Option.some firstDelivery →
      (readerRun lastTime rs).getLast? = Option.some lastDelivery →
      firstDelivery + (rs.length - 1) * 200 ≤ lastDelivery) ∧
    (∀ prev r : Nat, prev ≤ r → r - prev < 200 → readerSend prev r = prev + 200) ∧
    (∀ prev r : Nat, 200 ≤ r - prev → readerSend prev r = r) := by
  refine ⟨readerRun_chain lastTime rs h, ?_, ?_, ?_⟩
  · intro a b ha hb
    have := chain_span_200 (readerRun lastTime rs) (readerRun_chain lastTime rs h) a b ha hb
    rwa [readerRun_length] at this
  · intro prev r h1 h2
    unfold readerSend
    split <;> omega
  · intro prev r h1
    unfold readerSend
    split <;> omega

theorem reader_throttle_200ms_witness :
    chainedReads 0 [50, 250, 450] = true ∧
    readerRun 0 [50, 250, 450] = [200, 400, 600] ∧
    200 + (3 - 1) * 200 ≤ 600 := by
  refine ⟨by decide, by decide, ?_⟩
  exact (reader_throttle_200ms 0 [50, 250, 450] (by decide)).2.1 200 600
    (by decide) (by decide)

/-- C1: while the dispatcher waits in `getUserInput` — also inside a
menu via `execMenu` — every received event with a non-empty rendered
message is printed and the current prompt re-displayed, the wait
resumes, and the input line eventually delivered by the reader is
returned exactly; in a menu, a delivered line that is a valid choice (or
empty) is returned with its data, the pending choice never lost. -/
theorem getUserInput_multiplexes_events_and_preserves_input
    (s : SessionState) (prompt : String) (menu : Menu)
    (es : List Event) (line : String) (rest : List Arrival) :
    getUserInputRun s prompt (es.map Arrival.event ++ Arrival.input line :: rest) =
      ((eventEchoSpec prompt s es).1, (eventEchoSpec prompt s es).2,
        InputResult.returned line, rest) ∧
    (Menu.HasAction menu line = true ∨ line = "" →
      execMenuRun menu s (es.map Arrival.event ++ Arrival.input line :: rest) =
        ((eventEchoSpec menu.GetPrompt s es).1,
          OutAction.menuDisplay menu.title :: (eventEchoSpec menu.GetPrompt s es).2,
          MenuResult.done line (Menu.GetData menu line))) := by
  have hrun : ∀ p : String,
      getUserInputRun s p (es.map Arrival.event ++ Arrival.input line :: rest) =
        ((eventEchoSpec p s es).1, (eventEchoSpec p s es).2,
          InputResult.returned line, rest) := by
    intro p
    rw [getUserInputRun_events]
    simp [getUserInputRun]
  refine ⟨hrun prompt, ?_⟩
  intro hv
  rw [execMenuRun]
  split
  case _ heq =>
    rw [hrun menu.GetPrompt] at heq
    simp at heq
  case _ m heq =>
    rw [hrun menu.GetPrompt] at heq
    simp at heq
  case _ choice heq =>
    rw [hrun menu.GetPrompt] at heq
    simp only [InputResult.returned.injEq] at heq
    subst heq
    rw [if_pos hv]
    simp [hrun menu.GetPrompt]

theorem getUserInput_multiplexes_events_and_preserves_input_witness :
    (Menu.HasAction
        (Menu.mk "NPCs" "NPC menu: " [MenuAction.mk "2" "[2]Bob" (Option.some 42)]) "2" = true ∨
      ("2" : String) = "") ∧
    execMenuRun (Menu.mk "NPCs" "NPC menu: " [MenuAction.mk "2" "[2]Bob" (Option.some 42)])
        (SessionState.mk
          (Room.mk 1 3 "Town" "A town." (Coordinate.mk 0 0 0)
            (Exits.mk false false false false false false false false false false))
          (Zone.mk 3 "Midgard"))
        [Arrival.event (Event.other "Alice waves."), Arrival.input "2"] =
      (SessionState.mk
          (Room.mk 1 3 "Town" "A town." (Coordinate.mk 0 0 0)
            (Exits.mk false false false false false false false false false false))
          (Zone.mk 3 "Midgard"),
        [OutAction.menuDisplay "NPCs", OutAction.clearLine,
          OutAction.printLine "Alice waves.", OutAction.printString "NPC menu: "],
        MenuResult.done "2" (Option.some 42)) := by
  refine ⟨Or.inl (by decide), ?_⟩
  exact ((getUserInput_multiplexes_events_and_preserves_input
      (SessionState.mk
        (Room.mk 1 3 "Town" "A town." (Coordinate.mk 0 0 0)
          (Exits.mk false false false false false false false false false false))
        (Zone.mk 3 "Midgard"))
      "NPC menu: "
      (Menu.mk "NPCs" "NPC menu: " [MenuAction.mk "2" "[2]Bob" (Option.some 42)])
      [Event.other "Alice waves."] "2" []).2 (Or.inl (by decide))).trans (by decide)

/-- C5: a failure in the reader task is recovered there and forwarded on
the panic channel rather than crashing the reader alone; when
`getUserInput` receives it — also inside a menu — it re-raises it at
once, without retrying or consuming further trace, ending the
session. -/
theorem reader_failure_forwarded_and_reraised
    (s : SessionState) (prompt : String) (menu : Menu)
    (es : List Event) (m : String) (rest : List Arrival) :
    readerForward (ReadOutcome.failure m) = Arrival.panicMsg m ∧
    getUserInputRun s prompt (es.map Arrival.event ++ Arrival.panicMsg m :: rest) =
      ((eventEchoSpec prompt s es).1, (eventEchoSpec prompt s es).2,
        InputResult.panicked m, rest) ∧
    (execMenuRun menu s (es.map Arrival.event ++ Arrival.panicMsg m :: rest)).2.2 =
      MenuResult.panicked m := by
  have hrun : ∀ p : String,
      getUserInputRun s p (es.map Arrival.event ++ Arrival.panicMsg m :: rest) =
        ((eventEchoSpec p s es).1, (eventEchoSpec p s es).2,
          InputResult.panicked m, rest) := by
    intro p
    rw [getUserInputRun_events]
    simp [getUserInputRun]
  refine ⟨rfl, hrun prompt, ?_⟩
  rw [execMenuRun]
  split
  case _ heq =>
    rw [hrun menu.GetPrompt] at heq
    simp at heq
  case _ m1 heq =>
    rw [hrun menu.GetPrompt] at heq
    simp only [InputResult.panicked.injEq] at heq
    subst heq
    rfl
  case _ choice heq =>
    rw [hrun menu.GetPrompt] at heq
    simp at heq

/-! ### C6: exit-toggle lemmas -/

lemma setExitEnabled_id (r : Room) (d : ExitDirection) (b : Bool) :
    (r.SetExitEnabled d b).id = r.id := rfl

lemma setExitEnabled_location (r : Room) (d : ExitDirection) (b : Bool) :
    (r.SetExitEnabled d b).location = r.location := rfl

lemma setExitEnabled_zoneId (r : Room) (d : ExitDirection) (b : Bool) :
    (r.SetExitEnabled d b).zoneId = r.zoneId := rfl

lemma setExitEnabled_nextLocation (r : Room) (d : ExitDirection) (b : Bool)
    (d2 : ExitDirection) :
    (r.SetExitEnabled d b).NextLocation d2 = r.NextLocation d2 := by
  cases d2 <;> rfl

lemma hasExit_setExitEnabled (r : Room) (d : ExitDirection) (b : Bool)
    (h : d ≠ ExitDirection.none) :
    (r.SetExitEnabled d b).HasExit d = b := by
  cases d <;> first
    | exact absurd rfl h
    | rfl

lemma opposite_ne_none (d : ExitDirection) (h : d ≠ ExitDirection.none) :
    d.Opposite ≠ ExitDirection.none := by
  cases d <;> first
    | exact absurd rfl h
    | simp [ExitDirection.Opposite]

lemma nextLocation_ne (r : Room) (d : ExitDirection) (h : d ≠ ExitDirection.none) :
    r.NextLocation d ≠ r.location := by
  cases d with
  | none => exact absurd rfl h
  | north =>
    intro hc
    exact absurd (show r.location.y - 1 = r.location.y from congrArg Coordinate.y hc) (by omega)
  | south =>
    intro hc
    exact absurd (show r.location.y + 1 = r.location.y from congrArg Coordinate.y hc) (by omega)
  | east =>
    intro hc
    exact absurd (show r.location.x + 1 = r.location.x from congrArg Coordinate.x hc) (by omega)
  | west =>
    intro hc
    exact absurd (show r.location.x - 1 = r.location.x from congrArg Coordinate.x hc) (by omega)
  | northEast =>
    intro hc
    exact absurd (show r.location.x + 1 = r.location.x from congrArg Coordinate.x hc) (by omega)
  | southEast =>
    intro hc
    exact absurd (show r.location.x + 1 = r.location.x from congrArg Coordinate.x hc) (by omega)
  | southWest =>
    intro hc
    exact absurd (show r.location.x - 1 = r.location.x from congrArg Coordinate.x hc) (by omega)
  | northWest =>
    intro hc
    exact absurd (show r.location.x - 1 = r.location.x from congrArg Coordinate.x hc) (by omega)
  | up =>
    intro hc
    exact absurd (show r.location.z + 1 = r.location.z from congrArg Coordinate.z hc) (by omega)
  | down =>
    intro hc
    exact absurd (show r.location.z - 1 = r.location.z from congrArg Coordinate.z hc) (by omega)

lemma find?_map_pointwise {α : Type} (l : List α) (f : α → α) (p : α → Bool)
    (h : ∀ a ∈ l, p (f a) = p a) :
    (l.map f).find? p = (l.find? p).map f := by
  induction l with
  | nil => rfl
  | cons a t ih =>
    have ha := h a (List.mem_cons_self a t)
    by_cases hpa : p a = true
    · rw [List.map_cons, List.find?_cons_of_pos _ (by rw [ha]; exact hpa),
        List.find?_cons_of_pos _ hpa]
      rfl
    · rw [List.map_cons, List.find?_cons_of_neg _ (by rw [ha]; exact hpa),
        List.find?_cons_of_neg _ hpa]
      exact ih (fun x hx => h x (List.mem_cons_of_mem a hx))

lemma getRoomByLocation_updateRoom (w : World) (room room1 : Room)
    (hid : room1.id = room.id) (hloc : room1.location = room.location)
    (hz : room1.zoneId = room.zoneId)
    (hids : (w.rooms.map Room.id).Nodup) (hmem : room ∈ w.rooms)
    (loc : Coordinate) (zone : Zone) :
    GetRoomByLocation (w.updateRoom room1) loc zone =
      (GetRoomByLocation w loc zone).map (fun r => if r.id = room1.id then room1 else r) := by
  unfold GetRoomByLocation World.updateRoom
  apply find?_map_pointwise
  intro a ha
  by_cases hcase : a.id = room1.id
  · have haroom : a = room :=
      List.inj_on_of_nodup_map hids ha hmem (by rw [hcase, hid])
    subst haroom
    rw [if_pos hcase]
    simp [hloc, hz]
  · rw [if_neg hcase]

/-- C6: toggling an exit in direction d of the current room sets that
exit to the flipped state and, when a room exists at the adjacent
location in direction d within the same zone, also sets that neighboring
room's exit in the opposite direction to the same state, as two
sequential per-room mutations; when no adjacent room exists only the
current room is mutated. -/
theorem toggleExit_sets_both_sides (w : World) (room : Room) (zone : Zone)
    (direction : ExitDirection)
    (hids : (w.rooms.map Room.id).Nodup) (hmem : room ∈ w.rooms)
    (hdir : direction ≠ ExitDirection.none) :
    ((room.SetExitEnabled direction (!(room.HasExit direction))).HasExit direction
      = !(room.HasExit direction)) ∧
    (∀ other : Room,
      ((other.SetExitEnabled direction.Opposite (!(room.HasExit direction))).HasExit
          direction.Opposite)
        = !(room.HasExit direction)) ∧
    (toggleExit w room zone direction).rooms =
      w.rooms.map (fun r =>
        if r.id = room.id then room.SetExitEnabled direction (!(room.HasExit direction))
        else
          match GetRoomByLocation w (room.NextLocation direction) zone with
          | Option.some other =>
            if r.id = other.id
            then other.SetExitEnabled direction.Opposite (!(room.HasExit direction))
            else r
          | Option.none => r) := by
  refine ⟨hasExit_setExitEnabled room direction _ hdir,
    fun other => hasExit_setExitEnabled other direction.Opposite _ (opposite_ne_none direction hdir),
    ?_⟩
  unfold toggleExit
  rw [if_neg hdir]
  have hkey := getRoomByLocation_updateRoom w room
    (room.SetExitEnabled direction (!(room.HasExit direction))) rfl rfl rfl hids hmem
    (room.NextLocation direction) zone
  rw [setExitEnabled_nextLocation, hkey]
  cases hfind : GetRoomByLocation w (room.NextLocation direction) zone with
  | none =>
    simp only [hfind, Option.map_none', World.updateRoom, setExitEnabled_id]
  | some other =>
    have hfind2 : w.rooms.find?
        (fun r => decide (r.location = room.NextLocation direction) &&
          decide (r.zoneId = zone.id)) = Option.some other := hfind
    have hom : other ∈ w.rooms := List.mem_of_find?_eq_some hfind2
    have hp := List.find?_some hfind2
    simp only [Bool.and_eq_true, decide_eq_true_eq] at hp
    have hne : other.id ≠ room.id := by
      intro hcontra
      have hor : other = room := List.inj_on_of_nodup_map hids hom hmem hcontra
      rw [hor] at hp
      exact absurd hp.1.symm (nextLocation_ne room direction hdir)
    simp only [hfind, Option.map_some', setExitEnabled_id, if_neg hne]
    simp only [World.updateRoom, List.map_map]
    apply List.map_congr_left
    intro r hr
    by_cases h1 : r.id = room.id
    · simp [Function.comp, setExitEnabled_id, h1, hne.symm]
    · simp [Function.comp, setExitEnabled_id, h1]

theorem toggleExit_sets_both_sides_witness :
    ((Room.mk 1 3 "A" "a" (Coordinate.mk 0 0 0)
        (Exits.mk false false false false false false false false false false)) ∈
      (World.mk
        [Room.mk 1 3 "A" "a" (Coordinate.mk 0 0 0)
          (Exits.mk false false false false false false false false false false),
         Room.mk 2 3 "B" "b" (Coordinate.mk 0 (-1) 0)
          (Exits.mk false false false false false false false false false false)]).rooms) ∧
    (toggleExit
        (World.mk
          [Room.mk 1 3 "A" "a" (Coordinate.mk 0 0 0)
            (Exits.mk false false false false false false false false false false),
           Room.mk 2 3 "B" "b" (Coordinate.mk 0 (-1) 0)
            (Exits.mk false false false false false false false false false false)])
        (Room.mk 1 3 "A" "a" (Coordinate.mk 0 0 0)
          (Exits.mk false false false false false false false false false false))
        (Zone.mk 3 "Midgard") ExitDirection.north).rooms =
      [Room.mk 1 3 "A" "a" (Coordinate.mk 0 0 0)
        (Exits.mk true false false false false false false false false false),
       Room.mk 2 3 "B" "b" (Coordinate.mk 0 (-1) 0)
        (Exits.mk false false false false true false false false false false)] := by
  refine ⟨by decide, ?_⟩
  exact ((toggleExit_sets_both_sides
      (World.mk
        [Room.mk 1 3 "A" "a" (Coordinate.mk 0 0 0)
          (Exits.mk false false false false false false false false false false),
         Room.mk 2 3 "B" "b" (Coordinate.mk 0 (-1) 0)
          (Exits.mk false false false false false false false false false false)])
      (Room.mk 1 3 "A" "a" (Coordinate.mk 0 0 0)
        (Exits.mk false false false false false false false false false false))
      (Zone.mk 3 "Midgard") ExitDirection.north
      (by decide) (by decide) (by decide)).2.2).trans (by decide)

end Kmud
